import Mathlib

/-!
Verification of the sonarlint-mcp-server bridge core.

This file is a shallow embedding of the session/protocol core of the
repository, translated from `src/sloop-bridge.ts` and `src/index.ts`:

* the stream framer (`processMessages`), including the `Content-Length`
  header search that mirrors the regex
  `Content-Length: (\d+)\r?\n\r?\n` and the incremental buffer handling;
* the message router (`handleMessage`) with its JS-truthiness tests on
  `message.id` / `message.method`;
* the outstanding-call table (`pendingRequests`) with operation-class
  timeouts, timeout firing, response resolution, and the mass rejection
  on process exit (`rejectAllPending`);
* the session connectedness flags used by `connect`, `sendRequest` and
  `sendNotification`;
* the configuration-scope table (`getOrCreateScope` in `index.ts`);
* the `ClientFileDto` construction sites (`listFiles` callback in
  `sloop-bridge.ts`, `notifyFileSystemChanged` in `index.ts`) and the
  cache-invalidation event sequence of `handleApplyQuickFix`.

External library calls (filesystem reads, `path` functions, the md5
hash) are passed in as function parameters of the embedded definitions.
-/

/-! ## Small string utilities (JS semantics) -/

/-- `beginsWith pat s` is true when `pat` is an initial segment of `s`. -/
def beginsWith : List Char → List Char → Bool
  | [], _ => true
  | _ :: _, [] => false
  | c :: cs, d :: ds => if c = d then beginsWith cs ds else false

/-- `hasSubstr hay needle`: JS `hay.includes(needle)` on character lists. -/
def hasSubstr : List Char → List Char → Bool
  | [], needle => beginsWith needle []
  | c :: cs, needle => beginsWith needle (c :: cs) || hasSubstr cs needle

/-- JS `s.includes(sub)` for strings. -/
def includesS (s sub : String) : Bool := hasSubstr s.data sub.data

/-- JS truthiness of a possibly-absent string field: absent and the empty
string are falsy, every other string is truthy. -/
def jsTruthy : Option String → Bool
  | none => false
  | some s => !(s = "")

/-! ## Outstanding-call table (`pendingRequests` in sloop-bridge.ts) -/

/-- One entry of the `pendingRequests` map.  The resolver/rejecter closures
are represented by the `CallAction` events they fire; the entry keeps the data
the closures capture: the request method and its timeout class. -/
structure PendingEntry where
  method : String
  timeoutMs : Nat
deriving DecidableEq

/-- The `pendingRequests` map (string message id to pending entry),
in insertion order, as a JS `Map`. -/
abbrev PendingTable := List (String × PendingEntry)

/-- `Map.get`-style lookup. -/
def lookupEntry : PendingTable → String → Option PendingEntry
  | [], _ => none
  | p :: t, i => if p.1 = i then some p.2 else lookupEntry t i

/-- `Map.delete`. -/
def eraseEntry : PendingTable → String → PendingTable
  | [], _ => []
  | p :: t, i => if p.1 = i then eraseEntry t i else p :: eraseEntry t i

/-- `Map.set` (overwrite in place, else append). -/
def setEntry : PendingTable → String → PendingEntry → PendingTable
  | [], i, e => [(i, e)]
  | p :: t, i, e => if p.1 = i then (i, e) :: t else p :: setEntry t i e

/-- Observable effects on the promise/timer machinery. -/
inductive CallAction where
  | clearTimer (id : String)
  | resolve (id : String) (result : String)
  | reject (id : String) (message : String)
deriving DecidableEq

/-! ## Message router (`handleMessage` in sloop-bridge.ts) -/

/-- A decoded wire message, keeping the fields `handleMessage` inspects.
`error` holds the message text of an error object when one is present. -/
structure RawMsg where
  id : Option String
  method : Option String
  error : Option String
  result : String
deriving DecidableEq

/-- Where `handleMessage` routed a message. -/
inductive Routed where
  | clientRequest
  | responseResolved (id : String)
  | responseRejected (id : String)
  | responseDiscarded (id : String)
  | notified
  | dropped
deriving DecidableEq

/-- The spec's three buckets (plus "no bucket" for messages the code
falls through on). -/
inductive Bucket where
  | request
  | response
  | notification
  | noBucket
deriving DecidableEq

/-- The bucket of a routing outcome. -/
def bucketOf : Routed → Bucket
  | .clientRequest => .request
  | .responseResolved _ => .response
  | .responseRejected _ => .response
  | .responseDiscarded _ => .response
  | .notified => .notification
  | .dropped => .noBucket

/-- `message.error.message || 'RPC Error'`. -/
def errText (e : String) : String := if e = "" then "RPC Error" else e

/-- `handleMessage` from sloop-bridge.ts: the three truthiness tests on
`message.id` / `message.method`, with the response branch updating the
pending table (clear the deadline timer, delete the entry, then resolve
or reject) and unknown response ids discarded silently. -/
def handleMessage (table : PendingTable) (m : RawMsg) :
    PendingTable × Routed × List CallAction :=
  if jsTruthy m.id && jsTruthy m.method then
    (table, .clientRequest, [])
  else if jsTruthy m.id && !jsTruthy m.method then
    match m.id with
    | some i =>
      match lookupEntry table i with
      | some _ =>
        match m.error with
        | some e =>
          (eraseEntry table i, .responseRejected i,
            [CallAction.clearTimer i, CallAction.reject i (errText e)])
        | none =>
          (eraseEntry table i, .responseResolved i,
            [CallAction.clearTimer i, CallAction.resolve i m.result])
      | none => (table, .responseDiscarded i, [])
    | none => (table, .dropped, [])
  else if !jsTruthy m.id && jsTruthy m.method then
    (table, .notified, [])
  else
    (table, .dropped, [])

/-! ## Timeouts and mass rejection (sloop-bridge.ts) -/

/-- `const timeoutMs = method.includes('analyze') ? 60000 : 30000`. -/
def timeoutFor (method : String) : Nat :=
  if includesS method "analyze" then 60000 else 30000

/-- The timeout rejection text:
`Request timeout after (timeoutMs/1000)s: (method)`. -/
def timeoutMsg (method : String) (timeoutMs : Nat) : String :=
  "Request timeout after " ++ toString (timeoutMs / 1000) ++ "s: " ++ method

/-- The `setTimeout` callback registered by `sendRequest`: delete the entry
for this id and reject with the timeout error.  `method` and `timeoutMs`
are the values captured by the closure at registration time. -/
def fireTimeout (t : PendingTable) (i method : String) (timeoutMs : Nat) :
    PendingTable × List CallAction :=
  (eraseEntry t i, [CallAction.reject i (timeoutMsg method timeoutMs)])

/-- The response-arrival path restricted to a known id (the inner part of
`handleMessage`'s response branch for a successful result). -/
def resolveResponse (t : PendingTable) (i result : String) :
    PendingTable × List CallAction :=
  match lookupEntry t i with
  | some _ => (eraseEntry t i, [CallAction.clearTimer i, CallAction.resolve i result])
  | none => (t, [])

/-- The rejection text used when the backend process closes. -/
def sessionClosedMsg : String := "SLOOP process closed"

/-- `rejectAllPending`: for every pending entry clear its timer and reject
it, then clear the map. -/
def rejectAllActions : PendingTable → String → List CallAction
  | [], _ => []
  | p :: t, reason =>
    CallAction.clearTimer p.1 :: CallAction.reject p.1 reason :: rejectAllActions t reason

/-! ## Session connectedness (sloop-bridge.ts) -/

/-- The connectedness data of the bridge: whether a child process exists,
the `connected` flag, and whether the `initialize` handshake response has
arrived.  The code only stores the first two; `handshakeAcked` records
where in `connect()`'s promise the session is. -/
structure SessionFlags where
  hasProcess : Bool
  connected : Bool
  handshakeAcked : Bool
deriving DecidableEq

/-- The flags before `connect()` is ever called. -/
def initialFlags : SessionFlags :=
  { hasProcess := false, connected := false, handshakeAcked := false }

/-- The spawn section of `connect()`: starts the process, wires handlers,
and marks `connected = true` immediately, *before* the handshake response
arrives (the code comments: "Mark as connected immediately so we can send
the initialize request"). -/
def connectSpawn (f : SessionFlags) : SessionFlags :=
  { f with hasProcess := true, connected := true }

/-- The handshake response arriving (the `.then` of the handshake request
inside `connect()`). -/
def handshakeAck (f : SessionFlags) : SessionFlags :=
  { f with handshakeAcked := true }

/-- The spec's session state machine (section 4.7): Disconnected,
Handshaking, Ready.  Modelled from the spec: the code itself has no
three-state value, only the flags above, so this is the spec-side view
used to compare against the code's guards. -/
inductive SpecPhase where
  | disconnected
  | handshaking
  | ready
deriving DecidableEq

/-- Map the code's flags onto the spec's state machine. -/
def specPhase (f : SessionFlags) : SpecPhase :=
  if f.connected && f.hasProcess then
    (if f.handshakeAcked then .ready else .handshaking)
  else .disconnected

/-- Outcome of an attempted send. -/
inductive SendOutcome where
  | errorThrown (message : String)
  | written
deriving DecidableEq

/-- The guard of `sendNotification`:
`if (!this.connected || !this.process) throw new Error('Not connected to SLOOP')`. -/
def sendNotification (f : SessionFlags) : SendOutcome :=
  if f.connected && f.hasProcess then .written
  else .errorThrown "Not connected to SLOOP"

/-- `sendRequest`: same guard; on success allocate the next string id,
register a pending entry carrying the operation-class timeout, and write
the frame.  Returns the outcome together with the updated pending table
and message-id counter (unchanged when the guard throws). -/
def sendRequest (f : SessionFlags) (t : PendingTable) (messageId : Nat)
    (method : String) : SendOutcome × PendingTable × Nat :=
  if f.connected && f.hasProcess then
    let i := toString (messageId + 1)
    (.written, setEntry t i ⟨method, timeoutFor method⟩, messageId + 1)
  else (.errorThrown "Not connected to SLOOP", t, messageId)

/-- The `close` handler installed by `connect()`: set `connected = false`,
then `rejectAllPending('SLOOP process closed')`, leaving the map cleared. -/
def onProcessClose (f : SessionFlags) (t : PendingTable) :
    SessionFlags × PendingTable × List CallAction :=
  ({ f with connected := false }, [], rejectAllActions t sessionClosedMsg)

/-! ## connect() entry guard (C10) -/

/-- Full mutable session state of the bridge object. -/
structure BridgeState where
  flags : SessionFlags
  pending : PendingTable
  messageId : Nat
  messageBuffer : List Char
deriving DecidableEq

/-- What `connect()` did. -/
inductive ConnectAction where
  | skipped
  | spawned
deriving DecidableEq

/-- The entry of `connect()`: `if (this.connected) return;` — otherwise the
spawn path runs (process created, handlers wired, `connected` set). -/
def connectEntry (s : BridgeState) : BridgeState × ConnectAction :=
  if s.flags.connected then (s, .skipped)
  else ({ s with flags := connectSpawn s.flags }, .spawned)

/-! ## Client file descriptors (listFiles callback and cache invalidation) -/

/-- The `ClientFileDto` shape both construction sites build. -/
structure ClientFileDto where
  uri : String
  fsPath : String
  ideRelativePath : String
  configScopeId : String
  isTest : Option Bool
  charset : String
  content : Option String
  detectedLanguage : Option String
  isUserDefined : Bool
deriving DecidableEq

/-- sloop-bridge.ts `detectLanguage` helper inside the `listFiles`
callback (uppercase enum or null). -/
def detectLanguageSloop (filePath : String) : Option String :=
  if filePath.endsWith ".js" then some "JS"
  else if filePath.endsWith ".ts" then some "TS"
  else if filePath.endsWith ".py" then some "PYTHON"
  else if filePath.endsWith ".java" then some "JAVA"
  else if filePath.endsWith ".html" then some "HTML"
  else if filePath.endsWith ".css" then some "CSS"
  else none

/-- The descriptor pushed by the `listFiles` callback for one file. -/
def mkListFileDto (configScopeId fullPath relativePath content : String)
    (isTestFlag : Bool) : ClientFileDto :=
  { uri := "file://" ++ fullPath
    fsPath := fullPath
    ideRelativePath := relativePath
    configScopeId := configScopeId
    isTest := some isTestFlag
    charset := "UTF-8"
    content := some content
    detectedLanguage := detectLanguageSloop fullPath
    isUserDefined := true }

/-- The `listFiles` callback response body: root-directory source files
(isTest false) and the recursive `src/` scan (isTest from the relative
path containing "test").  `fs` is `readFileSync` (None when the read
throws, in which case the file is skipped), `relativeF` is
`path.relative`.  The directory scans that produce `rootFiles` and
`srcFiles` are filesystem effects outside the descriptor construction. -/
def listFilesDtos (fs : String → Option String)
    (relativeF : String → String → String) (baseDir configScopeId : String)
    (rootFiles srcFiles : List String) : List ClientFileDto :=
  (rootFiles.filterMap fun p =>
    (fs p).map fun c => mkListFileDto configScopeId p (relativeF baseDir p) c false)
  ++ (srcFiles.filterMap fun p =>
    (fs p).map fun c =>
      mkListFileDto configScopeId p (relativeF baseDir p) c
        (includesS (relativeF baseDir p) "test"))

/-! ## index.ts language detection -/

/-- index.ts `detectLanguage` (extension to lowercase language name,
`unknown` default).  `extnameF` is `path.extname`; the code lowercases it. -/
def detectLanguageIdx (extnameF : String → String) (filePath : String) : String :=
  let ext := (extnameF filePath).toLower
  if ext = ".js" then "javascript"
  else if ext = ".jsx" then "javascript"
  else if ext = ".ts" then "typescript"
  else if ext = ".tsx" then "typescript"
  else if ext = ".py" then "python"
  else if ext = ".java" then "java"
  else if ext = ".go" then "go"
  else if ext = ".php" then "php"
  else if ext = ".rb" then "ruby"
  else if ext = ".html" then "html"
  else if ext = ".css" then "css"
  else if ext = ".xml" then "xml"
  else "unknown"

/-- index.ts `languageToEnum` (SLOOP uppercase enum, with
`language.toUpperCase()` fallback). -/
def languageToEnum (language : String) : String :=
  if language = "javascript" then "JS"
  else if language = "typescript" then "TS"
  else if language = "python" then "PYTHON"
  else if language = "java" then "JAVA"
  else if language = "go" then "GO"
  else if language = "php" then "PHP"
  else if language = "ruby" then "RUBY"
  else if language = "html" then "HTML"
  else if language = "css" then "CSS"
  else if language = "xml" then "XML"
  else language.toUpper

/-! ## Cache invalidation flow (index.ts) -/

/-- Observable RPC-level events of the orchestrator. -/
inductive RpcEvent where
  | didOpenFile (configurationScopeId fileUri : String)
  | didUpdateFileSystem (addedFiles changedFiles removedFiles : List ClientFileDto)
  | settleDelay (ms : Nat)
  | analysisRequest (configurationScopeId : String)
deriving DecidableEq

/-- The wire method name carried by each RPC event (`settleDelay` is a
local timer, not an RPC). -/
def eventMethod : RpcEvent → String
  | .didOpenFile _ _ => "file/didOpenFile"
  | .didUpdateFileSystem _ _ _ => "file/didUpdateFileSystem"
  | .settleDelay _ => ""
  | .analysisRequest _ => "analysis/analyzeFilesAndTrack"

/-- Is an event an analysis request? -/
def isAnalysisEvent : RpcEvent → Bool
  | .analysisRequest _ => true
  | _ => false

/-- Reverse lookup of the project root for a scope id in the
root-to-scope map (the `for ... of scopeMap.entries()` loop). -/
def scopeRootLookup : List (String × String) → String → Option String
  | [], _ => none
  | p :: t, scopeId => if p.2 = scopeId then some p.1 else scopeRootLookup t scopeId

/-- `notifyFileSystemChanged` from index.ts: mark the file open under its
scope, re-read its bytes, and send `file/didUpdateFileSystem` whose
`changedFiles` entry is a full descriptor with literal content and
`isUserDefined := true`.  A read failure is caught after the open
notification was already sent (the function swallows errors). -/
def notifyFileSystemChanged (fs : String → Option String)
    (relativeF : String → String → String) (dirnameF extnameF : String → String)
    (scopeMap : List (String × String)) (filePath configScopeId : String) :
    List RpcEvent :=
  let uri := "file://" ++ filePath
  let projectRoot := (scopeRootLookup scopeMap configScopeId).getD (dirnameF filePath)
  let relativePath := relativeF projectRoot filePath
  let languageEnum := languageToEnum (detectLanguageIdx extnameF filePath)
  match fs filePath with
  | some fileContent =>
    [RpcEvent.didOpenFile configScopeId uri,
     RpcEvent.didUpdateFileSystem []
       [{ uri := uri
          fsPath := filePath
          ideRelativePath := relativePath
          configScopeId := configScopeId
          isTest := none
          charset := "UTF-8"
          content := some fileContent
          detectedLanguage := some languageEnum
          isUserDefined := true }] []]
  | none => [RpcEvent.didOpenFile configScopeId uri]

/-- The tail of `handleApplyQuickFix` after the file was rewritten on
disk: invoke `notifyFileSystemChanged`, then await the 500ms settling
delay before returning (so any later analysis request happens after the
delay). -/
def applyQuickFixInvalidation (fs : String → Option String)
    (relativeF : String → String → String) (dirnameF extnameF : String → String)
    (scopeMap : List (String × String)) (filePath configScopeId : String) :
    List RpcEvent :=
  notifyFileSystemChanged fs relativeF dirnameF extnameF scopeMap filePath configScopeId
    ++ [RpcEvent.settleDelay 500]

/-! ## Configuration scopes (index.ts getOrCreateScope) -/

/-- The scope bookkeeping of index.ts: the root-to-scopeId map and the
`configuration/didAddConfigurationScopes` notifications that were sent
(recorded as scope id and display name pairs). -/
structure ScopeState where
  scopeMap : List (String × String)
  scopeNotifications : List (String × String)
deriving DecidableEq

/-- Plain association lookup on the root-to-scope map. -/
def lookupStr : List (String × String) → String → Option String
  | [], _ => none
  | p :: t, k => if p.1 = k then some p.2 else lookupStr t k

/-- `getOrCreateScope` from index.ts.  `bridge` is whether `sloopBridge`
is non-null at call time (the registration notification is sent only
then); `md5hex` is the crypto hash; `dirnameF` is `path.dirname`. -/
def getOrCreateScope (md5hex dirnameF : String → String) (bridge : Bool)
    (st : ScopeState) (filePath : String) : String × ScopeState :=
  let projectRoot := dirnameF filePath
  match lookupStr st.scopeMap projectRoot with
  | some scopeId => (scopeId, st)
  | none =>
    let newScopeId := "scope-" ++ (md5hex projectRoot).take 8
    let notifs :=
      if bridge then
        st.scopeNotifications ++ [(newScopeId, "Project: " ++ projectRoot)]
      else st.scopeNotifications
    (newScopeId,
      { scopeMap := st.scopeMap ++ [(projectRoot, newScopeId)]
        scopeNotifications := notifs })

/-! ## Table lemmas -/

theorem lookup_erase (t : PendingTable) (i j : String) :
    lookupEntry (eraseEntry t i) j = if j = i then none else lookupEntry t j := by
  induction t with
  | nil => simp [lookupEntry, eraseEntry]
  | cons p t ih =>
    simp only [eraseEntry]
    by_cases hpi : p.1 = i
    · rw [if_pos hpi, ih]
      by_cases hji : j = i
      · simp [hji]
      · have hpj : ¬ p.1 = j := fun h => hji (by rw [← h, hpi])
        simp [lookupEntry, hji, hpj]
    · rw [if_neg hpi]
      simp only [lookupEntry]
      by_cases hpj : p.1 = j
      · have hji : ¬ j = i := fun h => hpi (by rw [hpj, h])
        simp [hpj, hji]
      · simp [hpj, ih]

theorem lookup_set_self (t : PendingTable) (i : String) (e : PendingEntry) :
    lookupEntry (setEntry t i e) i = some e := by
  induction t with
  | nil => simp [lookupEntry, setEntry]
  | cons p t ih =>
    by_cases hpi : p.1 = i <;> simp [lookupEntry, setEntry, hpi, ih]

/-- Extract the id of a reject action. -/
def rejectedId : CallAction → Option String
  | .reject i _ => some i
  | _ => none

theorem rejectAll_clear_mem (t : PendingTable) (reason : String) :
    ∀ p ∈ t, CallAction.clearTimer p.1 ∈ rejectAllActions t reason ∧
      CallAction.reject p.1 reason ∈ rejectAllActions t reason := by
  induction t with
  | nil => simp
  | cons q t ih =>
    intro p hp
    rcases List.mem_cons.mp hp with h | h
    · subst h; simp [rejectAllActions]
    · have := ih p h
      simp [rejectAllActions, this.1, this.2]

theorem rejectAll_ids (t : PendingTable) (reason : String) :
    (rejectAllActions t reason).filterMap rejectedId = t.map Prod.fst := by
  induction t with
  | nil => simp [rejectAllActions]
  | cons q t ih => simp [rejectAllActions, rejectedId, ih]

/-! ## C10 -/

/-- C10: `connect()` on an already-connected bridge returns at once without
spawning: the whole bridge state (pending table, message-id counter,
receive buffer, flags) is returned unchanged and the action is `skipped`. -/
theorem connect_idempotent_when_connected (s : BridgeState)
    (h : s.flags.connected = true) :
    connectEntry s = (s, ConnectAction.skipped) := by
  simp [connectEntry, h]

/-- Witness for C10 at a concrete connected state. -/
theorem connect_idempotent_when_connected_witness :
    ({ flags := { hasProcess := true, connected := true, handshakeAcked := true }
       pending := [("7", ⟨"getRuleDetails", 30000⟩)]
       messageId := 7
       messageBuffer := [] } : BridgeState).flags.connected = true ∧
    connectEntry
      { flags := { hasProcess := true, connected := true, handshakeAcked := true }
        pending := [("7", ⟨"getRuleDetails", 30000⟩)]
        messageId := 7
        messageBuffer := [] } =
      ({ flags := { hasProcess := true, connected := true, handshakeAcked := true }
         pending := [("7", ⟨"getRuleDetails", 30000⟩)]
         messageId := 7
         messageBuffer := [] }, ConnectAction.skipped) :=
  ⟨rfl, connect_idempotent_when_connected _ rfl⟩

/-! ## C5 -/

/-- C5 counterexample: right after `connect()` spawns the process the
session is in the spec's Handshaking state (handshake response not yet
received), yet both `sendNotification` and `sendRequest` write to the
wire instead of failing fast — the code sets `connected = true` before
the handshake response arrives, so the claim's "any state other than
Ready fails fast" is false. -/
theorem send_during_handshake_is_written :
    specPhase (connectSpawn initialFlags) = SpecPhase.handshaking ∧
    specPhase (connectSpawn initialFlags) ≠ SpecPhase.ready ∧
    sendNotification (connectSpawn initialFlags) = SendOutcome.written ∧
    (sendRequest (connectSpawn initialFlags) [] 0 "getRuleDetails").1 =
      SendOutcome.written := by
  decide

/-- C5 (amended): sends fail fast with the "Not connected to SLOOP" error
exactly in the spec's Disconnected state (connected flag unset or no
process), leaving the pending table and message-id counter untouched; in
the Handshaking window the code treats the session as connected and
writes to the wire. -/
theorem send_guard_not_connected (f : SessionFlags) (t : PendingTable)
    (mid : Nat) (method : String) :
    (specPhase f = SpecPhase.disconnected ↔
      sendNotification f = SendOutcome.errorThrown "Not connected to SLOOP") ∧
    (specPhase f = SpecPhase.disconnected ↔
      (sendRequest f t mid method).1 =
        SendOutcome.errorThrown "Not connected to SLOOP") ∧
    ((sendRequest f t mid method).1 =
        SendOutcome.errorThrown "Not connected to SLOOP" →
      sendRequest f t mid method =
        (SendOutcome.errorThrown "Not connected to SLOOP", t, mid)) := by
  cases hc : f.connected <;> cases hp : f.hasProcess <;>
    cases ha : f.handshakeAcked <;>
      simp [specPhase, sendNotification, sendRequest, hc, hp, ha]

/-- Witness for C5's amended theorem at the never-connected state. -/
theorem send_guard_not_connected_witness :
    specPhase initialFlags = SpecPhase.disconnected ∧
    sendRequest initialFlags [] 0 "getRuleDetails" =
      (SendOutcome.errorThrown "Not connected to SLOOP", [], 0) := by
  refine ⟨by decide, ?_⟩
  exact (send_guard_not_connected initialFlags [] 0 "getRuleDetails").2.2
    (by decide)

/-! ## C4 -/

/-- C4: when the backend process closes with K calls outstanding, the
close handler marks the session disconnected, clears the pending table,
clears every entry's deadline timer, and rejects every entry — and only
those entries, one reject per entry — with the session-closed error
("SLOOP process closed"). -/
theorem process_exit_rejects_all_pending (f : SessionFlags) (t : PendingTable) :
    (onProcessClose f t).1.connected = false ∧
    (onProcessClose f t).2.1 = [] ∧
    (∀ p ∈ t, CallAction.clearTimer p.1 ∈ (onProcessClose f t).2.2 ∧
      CallAction.reject p.1 sessionClosedMsg ∈ (onProcessClose f t).2.2) ∧
    ((onProcessClose f t).2.2.filterMap rejectedId = t.map Prod.fst) := by
  refine ⟨rfl, rfl, ?_, ?_⟩
  · exact rejectAll_clear_mem t sessionClosedMsg
  · exact rejectAll_ids t sessionClosedMsg

/-- A concrete pending table with two outstanding calls. -/
def pendingW : PendingTable :=
  [("1", ⟨"analysis/analyzeFilesAndTrack", 60000⟩),
   ("2", ⟨"getRuleDetails", 30000⟩)]

/-- Witness for C4 with two outstanding calls. -/
theorem process_exit_rejects_all_pending_witness :
    (("1", (⟨"analysis/analyzeFilesAndTrack", 60000⟩ : PendingEntry)) ∈ pendingW) ∧
    (onProcessClose (connectSpawn initialFlags) pendingW).2.1 = [] ∧
    CallAction.reject "1" sessionClosedMsg ∈
      (onProcessClose (connectSpawn initialFlags) pendingW).2.2 := by
  refine ⟨by decide, ?_, ?_⟩
  · exact (process_exit_rejects_all_pending (connectSpawn initialFlags) pendingW).2.1
  · exact ((process_exit_rejects_all_pending (connectSpawn initialFlags)
      pendingW).2.2.1 ("1", ⟨"analysis/analyzeFilesAndTrack", 60000⟩) (by decide)).2

/-! ## C7 -/

theorem lookupStr_append (l m : List (String × String)) (k : String)
    (h : lookupStr l k = none) : lookupStr (l ++ m) k = lookupStr m k := by
  induction l with
  | nil => rfl
  | cons p l ih =>
    by_cases hpk : p.1 = k
    · simp [lookupStr, hpk] at h
    · simp [lookupStr, hpk] at h ⊢
      exact ih h

/-- C7: every outgoing request registers a deadline of its operation
class (60s for methods containing "analyze", 30s otherwise, so
analysis-class deadlines are longer); when a deadline fires, that entry —
and only that entry — is removed and rejected with the timeout message
naming the method and the elapsed seconds, while any other outstanding
call keeps its entry and still resolves to its own result. -/
theorem timeout_isolated_per_call (f : SessionFlags) (t0 t : PendingTable)
    (mid tm : Nat) (m i1 i2 meth1 r : String) (e2 : PendingEntry)
    (hc : f.connected = true) (hp : f.hasProcess = true)
    (hne : i2 ≠ i1) (h2 : lookupEntry t i2 = some e2) :
    (includesS m "analyze" = true → timeoutFor m = 60000) ∧
    (includesS m "analyze" = false → timeoutFor m = 30000) ∧
    timeoutFor "getRuleDetails" < timeoutFor "analysis/analyzeFilesAndTrack" ∧
    lookupEntry (sendRequest f t0 mid m).2.1 (toString (mid + 1)) =
      some ⟨m, timeoutFor m⟩ ∧
    (fireTimeout t i1 meth1 tm).2 =
      [CallAction.reject i1 (timeoutMsg meth1 tm)] ∧
    lookupEntry (fireTimeout t i1 meth1 tm).1 i1 = none ∧
    (∀ j, j ≠ i1 → lookupEntry (fireTimeout t i1 meth1 tm).1 j = lookupEntry t j) ∧
    lookupEntry (fireTimeout t i1 meth1 tm).1 i2 = some e2 ∧
    (resolveResponse (fireTimeout t i1 meth1 tm).1 i2 r).2 =
      [CallAction.clearTimer i2, CallAction.resolve i2 r] := by
  refine ⟨fun h => by simp [timeoutFor, h], fun h => by simp [timeoutFor, h],
    by decide, ?_, rfl, ?_, ?_, ?_, ?_⟩
  · simp [sendRequest, hc, hp, lookup_set_self]
  · simp [fireTimeout, lookup_erase]
  · intro j hj
    simp [fireTimeout, lookup_erase, hj]
  · simp [fireTimeout, lookup_erase, hne, h2]
  · simp [resolveResponse, fireTimeout, lookup_erase, hne, h2]

/-- Witness for C7: in a table with calls "1" and "2", firing "1"'s
deadline leaves "2" resolvable to its own result. -/
theorem timeout_isolated_per_call_witness :
    lookupEntry pendingW "2" = some ⟨"getRuleDetails", 30000⟩ ∧
    lookupEntry (fireTimeout pendingW "1" "analysis/analyzeFilesAndTrack" 60000).1 "1" =
      none ∧
    lookupEntry (fireTimeout pendingW "1" "analysis/analyzeFilesAndTrack" 60000).1 "2" =
      some ⟨"getRuleDetails", 30000⟩ ∧
    (resolveResponse (fireTimeout pendingW "1" "analysis/analyzeFilesAndTrack" 60000).1
        "2" "ok").2 = [CallAction.clearTimer "2", CallAction.resolve "2" "ok"] := by
  have h := timeout_isolated_per_call (connectSpawn initialFlags) [] pendingW 5 60000
    "analysis/analyzeFilesAndTrack" "1" "2" "analysis/analyzeFilesAndTrack" "ok"
    ⟨"getRuleDetails", 30000⟩ rfl rfl (by decide) (by decide)
  exact ⟨by decide, h.2.2.2.2.2.1, h.2.2.2.2.2.2.2.1, h.2.2.2.2.2.2.2.2⟩

/-! ## C6 -/

def md5W : String → String := fun _ => "0123456789abcdef"

def dirW : String → String := fun _ => "/proj"

/-- First scope request for root "/proj", made while `sloopBridge` is
still null (as in the batch-analysis handler, which calls
`getOrCreateScope` before `ensureSloopBridge`). -/
def scopeStep1 : String × ScopeState :=
  getOrCreateScope md5W dirW false ⟨[], []⟩ "/proj/a.js"

/-- Second request for the same root, now with the bridge present. -/
def scopeStep2 : String × ScopeState :=
  getOrCreateScope md5W dirW true scopeStep1.2 "/proj/b.js"

/-- C6 counterexample: if the first request for a root happens while
`sloopBridge` is null (reachable: the batch handler computes scopes
before initializing the bridge), the `if (sloopBridge)` guard skips the
registration notification and the cached scope id prevents it from ever
being sent — both requests return the same id but the registration count
is 0, not exactly 1. -/
theorem scope_registration_skipped_without_bridge :
    scopeStep1.1 = scopeStep2.1 ∧
    scopeStep2.2.scopeNotifications = [] ∧
    scopeStep2.2.scopeNotifications.length ≠ 1 := by
  decide

/-- C6 (amended): requesting a scope for the same project root twice
returns the same scope id with the state unchanged by the second call,
and the registration notification for that root is issued at most once —
exactly once when the bridge is initialized at the first request, and
never when it is not. -/
theorem getOrCreateScope_scope_singleton (md5hex dirnameF : String → String)
    (b1 b2 : Bool) (st : ScopeState) (p1 p2 : String)
    (hroot : dirnameF p2 = dirnameF p1)
    (hnew : lookupStr st.scopeMap (dirnameF p1) = none) :
    getOrCreateScope md5hex dirnameF b2
        (getOrCreateScope md5hex dirnameF b1 st p1).2 p2 =
      ((getOrCreateScope md5hex dirnameF b1 st p1).1,
       (getOrCreateScope md5hex dirnameF b1 st p1).2) ∧
    (getOrCreateScope md5hex dirnameF b1 st p1).2.scopeMap =
      st.scopeMap ++ [(dirnameF p1, (getOrCreateScope md5hex dirnameF b1 st p1).1)] ∧
    (getOrCreateScope md5hex dirnameF b1 st p1).2.scopeNotifications =
      (if b1 then
        st.scopeNotifications ++
          [((getOrCreateScope md5hex dirnameF b1 st p1).1,
            "Project: " ++ dirnameF p1)]
       else st.scopeNotifications) := by
  have hlook : lookupStr (st.scopeMap ++ [(dirnameF p1, "scope-" ++
      (md5hex (dirnameF p1)).take 8)]) (dirnameF p1) =
      some ("scope-" ++ (md5hex (dirnameF p1)).take 8) := by
    rw [lookupStr_append _ _ _ hnew]
    simp [lookupStr]
  refine ⟨?_, ?_, ?_⟩ <;>
    simp [getOrCreateScope, hnew, hroot, hlook]

/-- Witness for C6's amended theorem: with the bridge present from the
start, the second request returns the first request's scope id and
leaves the state unchanged. -/
theorem getOrCreateScope_scope_singleton_witness :
    dirW "/proj/b.js" = dirW "/proj/a.js" ∧
    getOrCreateScope md5W dirW true
        (getOrCreateScope md5W dirW true ⟨[], []⟩ "/proj/a.js").2 "/proj/b.js" =
      ((getOrCreateScope md5W dirW true ⟨[], []⟩ "/proj/a.js").1,
       (getOrCreateScope md5W dirW true ⟨[], []⟩ "/proj/a.js").2) :=
  ⟨rfl, (getOrCreateScope_scope_singleton md5W dirW true true ⟨[], []⟩
    "/proj/a.js" "/proj/b.js" rfl rfl).1⟩

/-! ## C2 -/

/-- A synthetic wire message whose `id` field is present but empty. -/
def emptyIdMsg : RawMsg := { id := some "", method := some "log", error := none, result := "" }

/-- C2 counterexample: `handleMessage` tests JS truthiness, not field
presence.  The message with `id` present (the empty string) and `method`
present should be a Request by the presence truth table, but the code
routes it to the notification bucket because an empty-string `id` is
falsy. -/
theorem router_presence_table_fails :
    emptyIdMsg.id.isSome = true ∧ emptyIdMsg.method.isSome = true ∧
    bucketOf (handleMessage [] emptyIdMsg).2.1 = Bucket.notification ∧
    ¬ bucketOf (handleMessage [] emptyIdMsg).2.1 = Bucket.request := by
  decide

/-- C2 (amended): classification follows the truth table on the JS
*truthiness* of `id` and `method` (a present-but-empty field counts as
absent); each message lands in exactly one bucket, and in the response
bucket a known id is removed from the table with its deadline timer
cleared and its promise resolved or rejected, while an unknown id leaves
the table untouched and is discarded silently. -/
theorem router_truthiness_table (t : PendingTable) (m : RawMsg) :
    (bucketOf (handleMessage t m).2.1 = Bucket.request ↔
      (jsTruthy m.id = true ∧ jsTruthy m.method = true)) ∧
    (bucketOf (handleMessage t m).2.1 = Bucket.response ↔
      (jsTruthy m.id = true ∧ jsTruthy m.method = false)) ∧
    (bucketOf (handleMessage t m).2.1 = Bucket.notification ↔
      (jsTruthy m.id = false ∧ jsTruthy m.method = true)) ∧
    (∀ i, m.id = some i → jsTruthy m.id = true → jsTruthy m.method = false →
      (lookupEntry t i = none →
        handleMessage t m = (t, Routed.responseDiscarded i, [])) ∧
      (∀ e, lookupEntry t i = some e →
        (handleMessage t m).1 = eraseEntry t i ∧
        CallAction.clearTimer i ∈ (handleMessage t m).2.2 ∧
        ((handleMessage t m).2.1 = Routed.responseResolved i ∨
         (handleMessage t m).2.1 = Routed.responseRejected i))) := by
  have jsTruthy_none : jsTruthy none = false := rfl
  rcases m with ⟨mid, mmeth, merr, mres⟩
  cases mid with
  | none =>
    cases hme : jsTruthy mmeth <;>
      simp [handleMessage, bucketOf, hme, jsTruthy_none]
  | some s =>
    cases hsi : jsTruthy (some s) <;> cases hme : jsTruthy mmeth
    · simp [handleMessage, bucketOf, hsi, hme]
    · simp [handleMessage, bucketOf, hsi, hme]
    · -- truthy id, falsy method: the response branch
      cases hl : lookupEntry t s with
      | none =>
        simp [handleMessage, bucketOf, hsi, hme, hl]
      | some e =>
        cases merr with
        | none => simp [handleMessage, bucketOf, hsi, hme, hl]
        | some er => simp [handleMessage, bucketOf, hsi, hme, hl]
    · simp [handleMessage, bucketOf, hsi, hme]

/-- Witness for C2's amended theorem: a well-formed response for
outstanding id "1" is bucketed as Response and removes its entry. -/
theorem router_truthiness_table_witness :
    bucketOf (handleMessage pendingW ⟨some "1", none, none, "ok"⟩).2.1 =
      Bucket.response ∧
    (handleMessage pendingW ⟨some "1", none, none, "ok"⟩).1 =
      eraseEntry pendingW "1" := by
  have h := router_truthiness_table pendingW ⟨some "1", none, none, "ok"⟩
  exact ⟨h.2.1.mpr ⟨by decide, by decide⟩,
    ((h.2.2.2 "1" rfl (by decide) (by decide)).2
      ⟨"analysis/analyzeFilesAndTrack", 60000⟩ (by decide)).1⟩

/-! ## C3 -/

/-- C3: every Client File Descriptor the bridge constructs — in the
`listFiles` callback response and in the `didUpdateFileSystem`
cache-invalidation notification — has `isUserDefined = true` and carries
non-null content equal to the bytes actually read from disk at its
filesystem path. -/
theorem clientFileDto_contract :
    (∀ (fs : String → Option String) (relativeF : String → String → String)
      (baseDir scope : String) (rootFiles srcFiles : List String)
      (dto : ClientFileDto),
      dto ∈ listFilesDtos fs relativeF baseDir scope rootFiles srcFiles →
      dto.isUserDefined = true ∧
        ∃ c, fs dto.fsPath = some c ∧ dto.content = some c) ∧
    (∀ (fs : String → Option String) (relativeF : String → String → String)
      (dirnameF extnameF : String → String)
      (scopeMap : List (String × String)) (filePath scope : String)
      (added changed removed : List ClientFileDto) (dto : ClientFileDto),
      RpcEvent.didUpdateFileSystem added changed removed ∈
        notifyFileSystemChanged fs relativeF dirnameF extnameF scopeMap filePath scope →
      dto ∈ changed →
      dto.isUserDefined = true ∧
        ∃ c, fs dto.fsPath = some c ∧ dto.content = some c) := by
  constructor
  · intro fs relativeF baseDir scope rootFiles srcFiles dto hmem
    unfold listFilesDtos at hmem
    rcases List.mem_append.mp hmem with h | h <;>
    · rcases List.mem_filterMap.mp h with ⟨p, _, hmap⟩
      rcases Option.map_eq_some'.mp hmap with ⟨c, hc, hdto⟩
      subst hdto
      exact ⟨rfl, c, hc, rfl⟩
  · intro fs relativeF dirnameF extnameF scopeMap filePath scope added changed
      removed dto hev hdto
    unfold notifyFileSystemChanged at hev
    cases hc : fs filePath <;> simp only [hc] at hev
    · simp at hev
    · rcases List.mem_cons.mp hev with h | h
      · exact absurd h (by simp)
      · rcases List.mem_cons.mp h with h | h
        · cases h
          rcases List.mem_singleton.mp hdto with rfl
          exact ⟨rfl, _, hc, rfl⟩
        · simp at h

/-- A concrete disk with one file. -/
def fsW : String → Option String := fun _ => some "var x = 1;"

/-- A concrete `path.relative` stand-in. -/
def relW : String → String → String := fun _ p => p

/-- Witness for C3 at a one-file listing. -/
theorem clientFileDto_contract_witness :
    (mkListFileDto "scope-1" "/proj/a.js" "/proj/a.js" "var x = 1;" false ∈
      listFilesDtos fsW relW "/proj" "scope-1" ["/proj/a.js"] []) ∧
    ((mkListFileDto "scope-1" "/proj/a.js" "/proj/a.js" "var x = 1;" false).isUserDefined
        = true ∧
      ∃ c, fsW (mkListFileDto "scope-1" "/proj/a.js" "/proj/a.js" "var x = 1;"
        false).fsPath = some c ∧
        (mkListFileDto "scope-1" "/proj/a.js" "/proj/a.js" "var x = 1;"
          false).content = some c) := by
  have hmem : mkListFileDto "scope-1" "/proj/a.js" "/proj/a.js" "var x = 1;" false ∈
      listFilesDtos fsW relW "/proj" "scope-1" ["/proj/a.js"] [] := by
    unfold listFilesDtos
    refine List.mem_append_left _ (List.mem_filterMap.mpr ⟨"/proj/a.js", by simp, rfl⟩)
  exact ⟨hmem, clientFileDto_contract.1 fsW relW "/proj" "scope-1" ["/proj/a.js"] []
    _ hmem⟩

/-! ## C1 -/

/-- C1: after the quick-fix file mutation, the bridge emits exactly the
sequence `file/didOpenFile` (for the target file under its owning scope),
then `file/didUpdateFileSystem` whose `changedFiles` entry is a full
descriptor for that file (re-read content, `isUserDefined = true`), then
the 500ms settling delay as the final step — so no analysis request
occurs before the delay. -/
theorem apply_quick_fix_invalidation_order
    (fs : String → Option String) (relativeF : String → String → String)
    (dirnameF extnameF : String → String) (scopeMap : List (String × String))
    (filePath scope content : String) (hread : fs filePath = some content) :
    ∃ dto : ClientFileDto,
      applyQuickFixInvalidation fs relativeF dirnameF extnameF scopeMap filePath scope =
        [RpcEvent.didOpenFile scope ("file://" ++ filePath),
         RpcEvent.didUpdateFileSystem [] [dto] [],
         RpcEvent.settleDelay 500] ∧
      (applyQuickFixInvalidation fs relativeF dirnameF extnameF scopeMap filePath
          scope).map eventMethod =
        ["file/didOpenFile", "file/didUpdateFileSystem", ""] ∧
      ((applyQuickFixInvalidation fs relativeF dirnameF extnameF scopeMap filePath
          scope).all fun e => !isAnalysisEvent e) = true ∧
      dto.uri = "file://" ++ filePath ∧ dto.fsPath = filePath ∧
      dto.configScopeId = scope ∧ dto.content = some content ∧
      dto.isUserDefined = true := by
  refine ⟨{ uri := "file://" ++ filePath
            fsPath := filePath
            ideRelativePath := relativeF
              ((scopeRootLookup scopeMap scope).getD (dirnameF filePath)) filePath
            configScopeId := scope
            isTest := none
            charset := "UTF-8"
            content := some content
            detectedLanguage := some (languageToEnum (detectLanguageIdx extnameF filePath))
            isUserDefined := true }, ?_, ?_, ?_, rfl, rfl, rfl, rfl, rfl⟩ <;>
    simp [applyQuickFixInvalidation, notifyFileSystemChanged, hread, eventMethod,
      isAnalysisEvent]

/-- Witness for C1 at a concrete file and scope. -/
theorem apply_quick_fix_invalidation_order_witness :
    fsW "/proj/a.js" = some "var x = 1;" ∧
    ∃ dto : ClientFileDto,
      applyQuickFixInvalidation fsW relW dirW (fun _ => ".js")
          [("/proj", "scope-1")] "/proj/a.js" "scope-1" =
        [RpcEvent.didOpenFile "scope-1" ("file://" ++ "/proj/a.js"),
         RpcEvent.didUpdateFileSystem [] [dto] [],
         RpcEvent.settleDelay 500] ∧
      (applyQuickFixInvalidation fsW relW dirW (fun _ => ".js")
          [("/proj", "scope-1")] "/proj/a.js" "scope-1").map eventMethod =
        ["file/didOpenFile", "file/didUpdateFileSystem", ""] ∧
      ((applyQuickFixInvalidation fsW relW dirW (fun _ => ".js")
          [("/proj", "scope-1")] "/proj/a.js" "scope-1").all
        fun e => !isAnalysisEvent e) = true ∧
      dto.uri = "file://" ++ "/proj/a.js" ∧ dto.fsPath = "/proj/a.js" ∧
      dto.configScopeId = "scope-1" ∧ dto.content = some "var x = 1;" ∧
      dto.isUserDefined = true :=
  ⟨rfl, apply_quick_fix_invalidation_order fsW relW dirW (fun _ => ".js")
    [("/proj", "scope-1")] "/proj/a.js" "scope-1" "var x = 1;" rfl⟩

/-! ## Stream framer (processMessages in sloop-bridge.ts)

The backend's output chunks are appended to `messageBuffer`; the loop
searches for the first occurrence of the header regex
`Content-Length: (\d+)\r?\n\r?\n`, and when the declared number of
payload characters is available it slices the payload out (everything
before the header is consumed with the frame) and repeats.  The regex is
embedded as a deterministic matcher: literal header, maximal digit run,
then two line breaks, each an optional CR followed by LF (the backtracking
of `\d+` and `\r?` can never change the outcome: a digit is never CR/LF).
-/

/-- The literal part of the header regex. -/
def headerLit : List Char := "Content-Length: ".data

/-- `parseInt` on a run of decimal digits. -/
def digitsToNat (ds : List Char) : Nat :=
  ds.foldl (fun a c => 10 * a + (c.toNat - 48)) 0

/-- One `\r?\n`: the number of characters it consumes, or `none`. -/
def eatCRLF : List Char → Option Nat
  | [] => none
  | c :: cs =>
    if c = '\r' then
      match cs with
      | d :: _ => if d = '\n' then some 2 else none
      | [] => none
    else if c = '\n' then some 1
    else none

/-- The part of the regex after the literal: `(\d+)\r?\n\r?\n`; returns
the declared content length and the total match length. -/
def matchAfterHeader (rest : List Char) : Option (Nat × Nat) :=
  if rest.takeWhile Char.isDigit = [] then none
  else
    (eatCRLF (rest.drop (rest.takeWhile Char.isDigit).length)).bind fun k1 =>
      (eatCRLF ((rest.drop (rest.takeWhile Char.isDigit).length).drop k1)).bind fun k2 =>
        some (digitsToNat (rest.takeWhile Char.isDigit),
          headerLit.length + (rest.takeWhile Char.isDigit).length + k1 + k2)

/-- Does the header regex match at the start of `s`?  Returns the content
length and the full match length. -/
def matchHere (s : List Char) : Option (Nat × Nat) :=
  if beginsWith headerLit s then matchAfterHeader (s.drop headerLit.length)
  else none

/-- The regex search: the first position of `buf` where the header
matches, with the content length and match length
(`headerMatch.index`, `parseInt(headerMatch[1])`, `headerMatch[0].length`). -/
def findHeader : List Char → Option (Nat × Nat × Nat)
  | [] => none
  | c :: cs =>
    match matchHere (c :: cs) with
    | some (n, len) => some (0, n, len)
    | none =>
      match findHeader cs with
      | some (i, n, len) => some (i + 1, n, len)
      | none => none

/-- The `while (true)` loop of `processMessages`, fuelled (each iteration
consumes at least one buffered character, so `buf.length` fuel always
suffices): find the first header; if the declared payload is fully
buffered, slice it out (`headerEnd = index + match.length`,
`messageEnd = headerEnd + contentLength`, buffer advanced to
`messageEnd`) and loop, otherwise stop and keep the buffer. -/
def processGo : Nat → List Char → List Char × List (List Char)
  | 0, buf => (buf, [])
  | fuel + 1, buf =>
    match findHeader buf with
    | none => (buf, [])
    | some (i, n, len) =>
      if i + len + n ≤ buf.length then
        let r := processGo fuel (buf.drop (i + len + n))
        (r.1, (buf.drop (i + len)).take n :: r.2)
      else (buf, [])

/-- `processMessages` on a buffer: the remaining buffer and the extracted
payload slices, in order.  (JSON parsing of each payload happens after
extraction; a payload that fails to parse is logged and dropped.) -/
def processMessages (buf : List Char) : List Char × List (List Char) :=
  processGo buf.length buf

/-- One `data` event: append the chunk to the buffer and run
`processMessages`, accumulating extracted payloads. -/
def feedStep (st : List Char × List (List Char)) (c : List Char) :
    List Char × List (List Char) :=
  ((processMessages (st.1 ++ c)).1, st.2 ++ (processMessages (st.1 ++ c)).2)

/-- Feed a sequence of chunks to a fresh framer. -/
def feedChunks (chunks : List (List Char)) : List Char × List (List Char) :=
  chunks.foldl feedStep ([], [])

/-- Concatenation of all chunks. -/
def concatAll {α : Type} : List (List α) → List α
  | [] => []
  | c :: cs => c ++ concatAll cs

/-- One line break as matched by `\r?\n`: with or without the CR. -/
def sepOf : Bool → List Char
  | true => ['\r', '\n']
  | false => ['\n']

theorem beginsWith_iff (p s : List Char) :
    beginsWith p s = true ↔ ∃ t, s = p ++ t := by
  induction p generalizing s with
  | nil => simp [beginsWith]
  | cons c cs ih =>
    cases s with
    | nil =>
      simp [beginsWith]
    | cons d ds =>
      by_cases hcd : c = d
      · subst hcd
        simp [beginsWith, ih]
      · constructor
        · intro h
          simp [beginsWith, hcd] at h
        · rintro ⟨t, ht⟩
          injection ht with h1 _
          exact absurd h1.symm hcd

theorem takeWhile_append_sat (p : Char → Bool) (ds rest : List Char)
    (hall : ∀ c ∈ ds, p c = true)
    (hstop : ∀ r rs, rest = r :: rs → p r = false) :
    (ds ++ rest).takeWhile p = ds := by
  induction ds with
  | nil =>
    cases rest with
    | nil => rfl
    | cons r rs => simp [List.takeWhile_cons, hstop r rs rfl]
  | cons a ds ih =>
    have hpa : p a = true := hall a (by simp)
    simp only [List.cons_append, List.takeWhile_cons, hpa]
    simp [ih (fun c hc => hall c (by simp [hc]))]

theorem drop_takeWhile_eq (p : Char → Bool) (l : List Char) :
    l.drop (l.takeWhile p).length = l.dropWhile p := by
  induction l with
  | nil => rfl
  | cons a l ih =>
    cases hpa : p a <;>
      simp [List.takeWhile_cons, List.dropWhile_cons, hpa, ih]

theorem eatCRLF_some_iff (r : List Char) (k : Nat) :
    eatCRLF r = some k ↔ ∃ b t, r = sepOf b ++ t ∧ k = (sepOf b).length := by
  constructor
  · intro h
    cases r with
    | nil => simp [eatCRLF] at h
    | cons c cs =>
      by_cases hc : c = '\r'
      · subst hc
        cases cs with
        | nil => simp [eatCRLF] at h
        | cons d ds'
          =>
          by_cases hd : d = '\n'
          · subst hd
            simp [eatCRLF] at h
            exact ⟨true, ds', by simp [sepOf], by simp [sepOf, ← h]⟩
          · simp [eatCRLF, hd] at h
      · by_cases hc2 : c = '\n'
        · subst hc2
          simp [eatCRLF, (by decide : ¬ (('\n' : Char) = '\r'))] at h
          exact ⟨false, cs, by simp [sepOf], by simp [sepOf, ← h]⟩
        · simp [eatCRLF, hc, hc2] at h
  · rintro ⟨b, t, rfl, rfl⟩
    cases b <;>
      simp [eatCRLF, sepOf, (by decide : ¬ (('\n' : Char) = '\r'))]

theorem matchAfterHeader_some_iff (rest : List Char) (n len : Nat) :
    matchAfterHeader rest = some (n, len) ↔
      ∃ ds b1 b2 t, rest = ds ++ (sepOf b1 ++ (sepOf b2 ++ t)) ∧ ds ≠ [] ∧
        (∀ c ∈ ds, c.isDigit = true) ∧ n = digitsToNat ds ∧
        len = headerLit.length + ds.length + (sepOf b1).length + (sepOf b2).length := by
  constructor
  · intro h
    unfold matchAfterHeader at h
    by_cases hds : rest.takeWhile Char.isDigit = []
    · simp [hds] at h
    · rw [if_neg hds, Option.bind_eq_some] at h
      obtain ⟨k1, hk1, h⟩ := h
      rw [Option.bind_eq_some] at h
      obtain ⟨k2, hk2, h⟩ := h
      injection h with h'
      injection h' with hn hlen
      rcases (eatCRLF_some_iff _ _).mp hk1 with ⟨b1, t1, ht1, rfl⟩
      rcases (eatCRLF_some_iff _ _).mp hk2 with ⟨b2, t2, ht2, rfl⟩
      rw [ht1, List.drop_left] at ht2
      subst ht2
      refine ⟨rest.takeWhile Char.isDigit, b1, b2, t2, ?_,
        hds, fun c hc => List.mem_takeWhile_imp hc, hn.symm, hlen.symm⟩
      conv_lhs =>
        rw [← @List.takeWhile_append_dropWhile Char Char.isDigit rest,
          ← drop_takeWhile_eq, ht1]
  · rintro ⟨ds, b1, b2, t, rfl, hne, hdig, rfl, rfl⟩
    have htw : (ds ++ (sepOf b1 ++ (sepOf b2 ++ t))).takeWhile Char.isDigit = ds := by
      refine takeWhile_append_sat _ _ _ hdig ?_
      intro r rs hr
      cases b1 <;> simp [sepOf] at hr <;> rw [← hr.1] <;> decide
    unfold matchAfterHeader
    rw [htw, if_neg hne, List.drop_left]
    rw [(eatCRLF_some_iff _ _).mpr ⟨b1, sepOf b2 ++ t, rfl, rfl⟩, Option.some_bind]
    rw [List.drop_left]
    rw [(eatCRLF_some_iff _ _).mpr ⟨b2, t, rfl, rfl⟩, Option.some_bind]

theorem matchHere_some_iff (s : List Char) (n len : Nat) :
    matchHere s = some (n, len) ↔
      ∃ ds b1 b2 t, s = headerLit ++ (ds ++ (sepOf b1 ++ (sepOf b2 ++ t))) ∧ ds ≠ [] ∧
        (∀ c ∈ ds, c.isDigit = true) ∧ n = digitsToNat ds ∧
        len = headerLit.length + ds.length + (sepOf b1).length + (sepOf b2).length := by
  constructor
  · intro h
    unfold matchHere at h
    by_cases hbw : beginsWith headerLit s = true
    · rw [if_pos hbw] at h
      obtain ⟨t0, rfl⟩ := (beginsWith_iff _ _).mp hbw
      rw [List.drop_left] at h
      rcases (matchAfterHeader_some_iff _ _ _).mp h with
        ⟨ds, b1, b2, t, ht0, hne, hdig, hn, hlen⟩
      exact ⟨ds, b1, b2, t, by rw [ht0], hne, hdig, hn, hlen⟩
    · rw [if_neg hbw] at h; cases h
  · rintro ⟨ds, b1, b2, t, rfl, hne, hdig, rfl, rfl⟩
    have hbw : beginsWith headerLit
        (headerLit ++ (ds ++ (sepOf b1 ++ (sepOf b2 ++ t)))) = true :=
      (beginsWith_iff _ _).mpr ⟨_, rfl⟩
    unfold matchHere
    rw [if_pos hbw, List.drop_left]
    exact (matchAfterHeader_some_iff _ _ _).mpr ⟨ds, b1, b2, t, rfl, hne, hdig, rfl, rfl⟩

theorem matchHere_nil : matchHere ([] : List Char) = none := by decide

theorem matchHere_len_pos (s : List Char) (n len : Nat)
    (h : matchHere s = some (n, len)) : 1 ≤ len := by
  rcases (matchHere_some_iff s n len).mp h with ⟨ds, b1, b2, t, _, _, _, _, rfl⟩
  have h16 : headerLit.length = 16 := by decide
  omega

theorem matchHere_head (s : List Char) (n len : Nat)
    (h : matchHere s = some (n, len)) : ∃ u, s = 'C' :: u := by
  rcases (matchHere_some_iff s n len).mp h with ⟨ds, b1, b2, t, rfl, _, _, _, _⟩
  refine ⟨"ontent-Length: ".data ++ (ds ++ (sepOf b1 ++ (sepOf b2 ++ t))), ?_⟩
  rw [show headerLit = 'C' :: "ontent-Length: ".data from by decide]
  simp

theorem matchHere_append (s u : List Char) (n len : Nat)
    (h : matchHere s = some (n, len)) : matchHere (s ++ u) = some (n, len) := by
  rcases (matchHere_some_iff s n len).mp h with ⟨ds, b1, b2, t, rfl, hne, hdig, rfl, rfl⟩
  refine (matchHere_some_iff _ _ _).mpr ⟨ds, b1, b2, t ++ u, ?_, hne, hdig, rfl, rfl⟩
  simp

theorem matchHere_straddle (s u : List Char) (n len : Nat)
    (hs : matchHere s = none) (hsu : matchHere (s ++ u) = some (n, len)) :
    s.length < len := by
  by_contra hle
  push_neg at hle
  rcases (matchHere_some_iff _ n len).mp hsu with ⟨ds, b1, b2, t, heq, hne, hdig, hn, hlen⟩
  have hMlen : (headerLit ++ (ds ++ (sepOf b1 ++ sepOf b2))).length = len := by
    simp [List.length_append]
    omega
  have heq' : s ++ u = (headerLit ++ (ds ++ (sepOf b1 ++ sepOf b2))) ++ t := by
    rw [heq]; simp
  have htake : s.take len = headerLit ++ (ds ++ (sepOf b1 ++ sepOf b2)) := by
    have h1 : (s ++ u).take len = s.take len :=
      List.take_append_of_le_length hle
    have h2 : (s ++ u).take len = headerLit ++ (ds ++ (sepOf b1 ++ sepOf b2)) := by
      rw [heq', ← hMlen, List.take_left]
    rw [← h1, h2]
  have hs' : s = headerLit ++ (ds ++ (sepOf b1 ++ (sepOf b2 ++ s.drop len))) := by
    conv_lhs => rw [← List.take_append_drop len s, htake]
    simp
  have : matchHere s = some (digitsToNat ds, len) :=
    (matchHere_some_iff _ _ _).mpr ⟨ds, b1, b2, s.drop len, hs', hne, hdig, rfl, hlen⟩
  rw [this] at hs
  cases hs

theorem matchHere_no_inner (s : List Char) (n len j : Nat)
    (h : matchHere s = some (n, len)) (hj1 : 1 ≤ j) (hj2 : j < len) :
    matchHere (s.drop j) = none := by
  rcases (matchHere_some_iff s n len).mp h with ⟨ds, b1, b2, t, rfl, hne, hdig, hn, hlen⟩
  set M : List Char := headerLit ++ (ds ++ (sepOf b1 ++ sepOf b2)) with hMdef
  have hMlen : M.length = len := by
    simp [hMdef, List.length_append]
    omega
  have hsplit : headerLit ++ (ds ++ (sepOf b1 ++ (sepOf b2 ++ t))) = M ++ t := by
    simp [hMdef]
  cases hmj : matchHere ((headerLit ++ (ds ++ (sepOf b1 ++ (sepOf b2 ++ t)))).drop j) with
  | none => rfl
  | some v =>
    exfalso
    obtain ⟨n', len'⟩ := v
    obtain ⟨u, hu⟩ := matchHere_head _ _ _ hmj
    rw [hsplit, List.drop_append_of_le_length (by omega)] at hu
    have hj3 : j < M.length := by omega
    rw [List.drop_eq_getElem_cons hj3, List.cons_append] at hu
    injection hu with h1 _
    have hnoC : ∀ c ∈ M.drop 1, ¬ c = 'C' := by
      have hM1 : M.drop 1 = "ontent-Length: ".data ++ (ds ++ (sepOf b1 ++ sepOf b2)) := by
        rw [hMdef, show headerLit = 'C' :: "ontent-Length: ".data from by decide]
        simp
      rw [hM1]
      intro c hc hceq
      subst hceq
      rcases List.mem_append.mp hc with hc | hc
      · exact absurd hc (by decide)
      · rcases List.mem_append.mp hc with hc | hc
        · have := hdig _ hc
          exact absurd this (by decide)
        · rcases List.mem_append.mp hc with hc | hc <;>
            cases b1 <;> cases b2 <;> simp [sepOf] at hc
    have hmem : M[j] ∈ M.drop 1 := by
      have hidx : 1 + (j - 1) = j := by omega
      have hb : j - 1 < (M.drop 1).length := by
        simp [List.length_drop]
        omega
      have : (M.drop 1)[j - 1] = M[j] := by
        rw [List.getElem_drop]
        congr 1
      exact this ▸ List.getElem_mem hb
    exact hnoC _ hmem h1

theorem findHeader_spec (s : List Char) (i n len : Nat)
    (h : findHeader s = some (i, n, len)) :
    matchHere (s.drop i) = some (n, len) ∧
      ∀ p, p < i → matchHere (s.drop p) = none := by
  induction s generalizing i n len with
  | nil => simp [findHeader] at h
  | cons c cs ih =>
    cases hm : matchHere (c :: cs) with
    | some v =>
      obtain ⟨n0, len0⟩ := v
      rw [findHeader, hm] at h
      injection h with h'
      injection h' with h1 h2
      injection h2 with h3 h4
      subst h1 h3 h4
      exact ⟨by simpa using hm, fun p hp => absurd hp (Nat.not_lt_zero p)⟩
    | none =>
      cases hf : findHeader cs with
      | none => rw [findHeader, hm, hf] at h; cases h
      | some v =>
        obtain ⟨i', n', len'⟩ := v
        rw [findHeader, hm, hf] at h
        injection h with h'
        injection h' with h1 h2
        injection h2 with h3 h4
        subst h1 h3 h4
        obtain ⟨hsp, hmin⟩ := ih i' n' len' hf
        refine ⟨by simpa using hsp, ?_⟩
        intro p hp
        cases p with
        | zero => simpa using hm
        | succ p' => simpa using hmin p' (by omega)

theorem findHeader_least (i : Nat) : ∀ (s : List Char) (n len : Nat),
    matchHere (s.drop i) = some (n, len) →
    (∀ p, p < i → matchHere (s.drop p) = none) →
    findHeader s = some (i, n, len) := by
  induction i with
  | zero =>
    intro s n len hmi _
    rw [List.drop_zero] at hmi
    cases s with
    | nil => rw [matchHere_nil] at hmi; cases hmi
    | cons c cs => rw [findHeader, hmi]
  | succ i' ih =>
    intro s n len hmi hmin
    have h0 : matchHere s = none := by simpa using hmin 0 (Nat.succ_pos _)
    cases s with
    | nil => simp [matchHere_nil] at hmi
    | cons c cs =>
      have hrec : findHeader cs = some (i', n, len) := by
        refine ih cs n len (by simpa using hmi) ?_
        intro p hp
        simpa using hmin (p + 1) (by omega)
      rw [findHeader, (by simpa using h0 : matchHere (c :: cs) = none), hrec]

theorem findHeader_append (a u : List Char) (i n len : Nat)
    (h : findHeader a = some (i, n, len)) :
    findHeader (a ++ u) = some (i, n, len) := by
  obtain ⟨hmi, hmin⟩ := findHeader_spec a i n len h
  have hi : i < a.length := by
    by_contra h'
    push_neg at h'
    rw [List.drop_eq_nil_of_le h', matchHere_nil] at hmi
    cases hmi
  refine findHeader_least i (a ++ u) n len ?_ ?_
  · rw [List.drop_append_of_le_length hi.le]
    exact matchHere_append _ u _ _ hmi
  · intro p hp
    have hpa : p ≤ a.length := by omega
    rw [List.drop_append_of_le_length hpa]
    cases h' : matchHere (a.drop p ++ u) with
    | none => rfl
    | some v =>
      exfalso
      obtain ⟨n', len'⟩ := v
      have hstrad : (a.drop p).length < len' :=
        matchHere_straddle _ _ _ _ (hmin p hp) h'
      rw [List.length_drop] at hstrad
      have hnis := matchHere_no_inner (a.drop p ++ u) n' len' (i - p) h'
        (by omega) (by omega)
      rw [List.drop_append_of_le_length (by simp [List.length_drop]; omega),
        List.drop_drop] at hnis
      have hip : p + (i - p) = i := by omega
      rw [hip] at hnis
      have := matchHere_append (a.drop i) u n len hmi
      rw [this] at hnis
      cases hnis

theorem findHeader_len_pos (s : List Char) (i n len : Nat)
    (h : findHeader s = some (i, n, len)) : 1 ≤ len :=
  matchHere_len_pos _ _ _ (findHeader_spec s i n len h).1

theorem findHeader_nil : findHeader ([] : List Char) = none := rfl

theorem processGo_congr (f : Nat) : ∀ (g : Nat) (buf : List Char),
    buf.length ≤ f → buf.length ≤ g → processGo f buf = processGo g buf := by
  induction f with
  | zero =>
    intro g buf hf _
    have hnil : buf = [] := List.length_eq_zero.mp (Nat.le_zero.mp hf)
    subst hnil
    cases g with
    | zero => rfl
    | succ g' => simp [processGo, findHeader_nil]
  | succ f' ih =>
    intro g buf hf hg
    cases g with
    | zero =>
      have hnil : buf = [] := List.length_eq_zero.mp (Nat.le_zero.mp hg)
      subst hnil
      simp [processGo, findHeader_nil]
    | succ g' =>
      cases hfh : findHeader buf with
      | none => simp [processGo, hfh]
      | some v =>
        obtain ⟨i, n, len⟩ := v
        by_cases hle : i + len + n ≤ buf.length
        · have hlen1 : 1 ≤ len := findHeader_len_pos buf i n len hfh
          have hd1 : (buf.drop (i + len + n)).length ≤ f' := by
            simp [List.length_drop]
            omega
          have hd2 : (buf.drop (i + len + n)).length ≤ g' := by
            simp [List.length_drop]
            omega
          simp only [processGo, hfh, if_pos hle]
          rw [ih g' (buf.drop (i + len + n)) hd1 hd2]
        · simp [processGo, hfh, hle]

theorem pm_no_header (buf : List Char) (h : findHeader buf = none) :
    processMessages buf = (buf, []) := by
  unfold processMessages
  cases hl : buf.length with
  | zero => rfl
  | succ k => simp [processGo, h]

theorem pm_stall (buf : List Char) (i n len : Nat)
    (h : findHeader buf = some (i, n, len)) (hgt : buf.length < i + len + n) :
    processMessages buf = (buf, []) := by
  unfold processMessages
  cases hl : buf.length with
  | zero => rfl
  | succ k => simp [processGo, h, Nat.not_le.mpr hgt]

theorem pm_consume (buf : List Char) (i n len : Nat)
    (h : findHeader buf = some (i, n, len)) (hle : i + len + n ≤ buf.length) :
    processMessages buf =
      ((processMessages (buf.drop (i + len + n))).1,
       (buf.drop (i + len)).take n ::
         (processMessages (buf.drop (i + len + n))).2) := by
  have hlen1 : 1 ≤ len := findHeader_len_pos buf i n len h
  unfold processMessages
  cases hl : buf.length with
  | zero =>
    rw [hl] at hle
    omega
  | succ k =>
    rw [hl] at hle
    simp only [processGo, h, if_pos (hl ▸ hle : i + len + n ≤ buf.length)]
    rw [processGo_congr k ((buf.drop (i + len + n)).length) (buf.drop (i + len + n))
      (by simp [List.length_drop]; omega) le_rfl]

theorem pm_idem : ∀ (buf : List Char),
    processMessages (processMessages buf).1 = ((processMessages buf).1, []) := by
  have main : ∀ (N : Nat) (buf : List Char), buf.length ≤ N →
      processMessages (processMessages buf).1 = ((processMessages buf).1, []) := by
    intro N
    induction N with
    | zero =>
      intro buf hb
      have hnil : buf = [] := List.length_eq_zero.mp (Nat.le_zero.mp hb)
      subst hnil
      rfl
    | succ N ih =>
      intro buf hb
      cases hfh : findHeader buf with
      | none =>
        rw [pm_no_header buf hfh]
        exact pm_no_header buf hfh
      | some v =>
        obtain ⟨i, n, len⟩ := v
        by_cases hle : i + len + n ≤ buf.length
        · have hlen1 : 1 ≤ len := findHeader_len_pos buf i n len hfh
          rw [pm_consume buf i n len hfh hle]
          exact ih (buf.drop (i + len + n)) (by simp [List.length_drop]; omega)
        · rw [pm_stall buf i n len hfh (by omega)]
          exact pm_stall buf i n len hfh (by omega)
  exact fun buf => main buf.length buf le_rfl

theorem pm_append : ∀ (a b : List Char),
    processMessages (a ++ b) =
      ((processMessages ((processMessages a).1 ++ b)).1,
       (processMessages a).2 ++ (processMessages ((processMessages a).1 ++ b)).2) := by
  have main : ∀ (N : Nat) (a b : List Char), a.length ≤ N →
      processMessages (a ++ b) =
        ((processMessages ((processMessages a).1 ++ b)).1,
         (processMessages a).2 ++
           (processMessages ((processMessages a).1 ++ b)).2) := by
    intro N
    induction N with
    | zero =>
      intro a b ha
      have hnil : a = [] := List.length_eq_zero.mp (Nat.le_zero.mp ha)
      subst hnil
      simp [show processMessages ([] : List Char) = ([], []) from rfl]
    | succ N ih =>
      intro a b ha
      cases hfh : findHeader a with
      | none =>
        rw [pm_no_header a hfh]
        simp
      | some v =>
        obtain ⟨i, n, len⟩ := v
        by_cases hle : i + len + n ≤ a.length
        · have hlen1 : 1 ≤ len := findHeader_len_pos a i n len hfh
          have hfh' : findHeader (a ++ b) = some (i, n, len) :=
            findHeader_append a b i n len hfh
          have hle' : i + len + n ≤ (a ++ b).length := by
            simp [List.length_append]
            omega
          rw [pm_consume a i n len hfh hle, pm_consume (a ++ b) i n len hfh' hle']
          have hpay : ((a ++ b).drop (i + len)).take n = (a.drop (i + len)).take n := by
            rw [List.drop_append_of_le_length (by omega : i + len ≤ a.length)]
            exact List.take_append_of_le_length (by simp [List.length_drop]; omega)
          have hrest : (a ++ b).drop (i + len + n) = a.drop (i + len + n) ++ b :=
            List.drop_append_of_le_length hle
          rw [hrest, hpay]
          rw [ih (a.drop (i + len + n)) b (by simp [List.length_drop]; omega)]
          simp
        · rw [pm_stall a i n len hfh (by omega)]
          simp
  exact fun a b => main a.length a b le_rfl

theorem feed_fold : ∀ (chunks : List (List Char)) (buf : List Char)
    (acc : List (List Char)), processMessages buf = (buf, []) →
    List.foldl feedStep (buf, acc) chunks =
      ((processMessages (buf ++ concatAll chunks)).1,
       acc ++ (processMessages (buf ++ concatAll chunks)).2) := by
  intro chunks
  induction chunks with
  | nil =>
    intro buf acc hq
    simp [concatAll, hq]
  | cons c cs ih =>
    intro buf acc hq
    simp only [List.foldl, feedStep, concatAll]
    rw [ih ((processMessages (buf ++ c)).1) (acc ++ (processMessages (buf ++ c)).2)
      (pm_idem (buf ++ c))]
    rw [← List.append_assoc, pm_append (buf ++ c) (concatAll cs)]
    simp

/-- Character-level chunk invariance: feeding any chunking of a decoded
character stream to the framer, one chunk at a time, extracts exactly the
same payload sequence (and leaves the same residual buffer) as feeding
the whole stream as a single chunk.  This is the invariance the buffer
arithmetic of `processMessages` itself provides; the byte-level picture
(C8) additionally goes through the per-chunk UTF-8 decoding of
`data.toString()`, see below. -/
theorem framer_chunk_split_invariant (chunks : List (List Char)) :
    feedChunks chunks = feedChunks [concatAll chunks] := by
  unfold feedChunks
  rw [feed_fold chunks [] [] rfl, feed_fold [concatAll chunks] [] [] rfl]
  simp [concatAll]

/-! ## C9 -/

/-- C9 (amended): a complete frame whose declared length equals its
payload's buffered character (UTF-16 code unit) count — which equals the
byte count exactly for ASCII payloads — is consumed exactly: the buffer
is advanced past precisely the declared payload, so the suffix stream
decodes to exactly what it would decode to on its own, and a payload
that fails JSON parsing contributes nothing to the decoded messages (it
is dropped after extraction) without disturbing any later frame.  When
the bad payload contains multi-byte UTF-8 sequences the declared byte
count exceeds the character count and the advance overshoots — see the
desynchronization counterexample below. -/
theorem framer_bad_frame_resync {M : Type} (parse : List Char → Option M)
    (ds payload rest : List Char) (b1 b2 : Bool)
    (hne : ds ≠ []) (hdig : ∀ c ∈ ds, c.isDigit = true)
    (hlen : digitsToNat ds = payload.length)
    (hbad : parse payload = none) :
    processMessages
        (headerLit ++ (ds ++ (sepOf b1 ++ (sepOf b2 ++ (payload ++ rest))))) =
      ((processMessages rest).1, payload :: (processMessages rest).2) ∧
    (processMessages
        (headerLit ++ (ds ++ (sepOf b1 ++ (sepOf b2 ++ (payload ++ rest)))))).2.filterMap
          parse =
      (processMessages rest).2.filterMap parse := by
  set len := headerLit.length + ds.length + (sepOf b1).length + (sepOf b2).length
    with hlendef
  set s := headerLit ++ (ds ++ (sepOf b1 ++ (sepOf b2 ++ (payload ++ rest))))
    with hsdef
  have hm : matchHere s = some (digitsToNat ds, len) :=
    (matchHere_some_iff _ _ _).mpr ⟨ds, b1, b2, payload ++ rest, rfl, hne, hdig, rfl, rfl⟩
  have hfh : findHeader s = some (0, digitsToNat ds, len) :=
    findHeader_least 0 s _ _ (by simpa using hm)
      (fun p hp => absurd hp (Nat.not_lt_zero p))
  have hslen : s.length = len + (payload.length + rest.length) := by
    simp only [hsdef, hlendef, List.length_append]
    omega
  have hle : 0 + len + digitsToNat ds ≤ s.length := by
    rw [hlen]
    omega
  have hM : s = (headerLit ++ (ds ++ (sepOf b1 ++ sepOf b2))) ++ (payload ++ rest) := by
    simp [hsdef]
  have hMlen : (headerLit ++ (ds ++ (sepOf b1 ++ sepOf b2))).length = len := by
    simp only [hlendef, List.length_append]
    omega
  have hpay : (s.drop (0 + len)).take (digitsToNat ds) = payload := by
    rw [hM, Nat.zero_add, ← hMlen, List.drop_left, hlen, List.take_left]
  have hrest : s.drop (0 + len + digitsToNat ds) = rest := by
    have hassoc : s = ((headerLit ++ (ds ++ (sepOf b1 ++ sepOf b2))) ++ payload)
        ++ rest := by
      simp [hsdef]
    have hlen2 : ((headerLit ++ (ds ++ (sepOf b1 ++ sepOf b2))) ++ payload).length =
        0 + len + digitsToNat ds := by
      simp only [List.length_append, hMlen, hlen]
      omega
    rw [hassoc, ← hlen2, List.drop_left]
  refine ⟨?_, ?_⟩
  · rw [pm_consume s 0 (digitsToNat ds) len hfh hle, hpay, hrest]
  · rw [pm_consume s 0 (digitsToNat ds) len hfh hle, hpay, hrest]
    simp [hbad]

/-- Witness for C9 at a concrete one-digit frame with unparseable
payload. -/
theorem framer_bad_frame_resync_witness :
    processMessages
        (headerLit ++ (['1'] ++ (sepOf true ++ (sepOf true ++ (['X'] ++ []))))) =
      ((processMessages []).1, ['X'] :: (processMessages []).2) ∧
    (processMessages
        (headerLit ++ (['1'] ++ (sepOf true ++ (sepOf true ++ (['X'] ++ [])))))).2.filterMap
          (fun _ => (none : Option Nat)) =
      (processMessages []).2.filterMap (fun _ => (none : Option Nat)) :=
  framer_bad_frame_resync (fun _ => none) ['1'] ['X'] [] true true
    (by decide) (by decide) (by decide) rfl

/-! ## Byte-level stream (data events)

The `data` handler receives `Buffer` chunks of UTF-8 bytes and appends
`data.toString()` to the string buffer.  `Buffer.toString('utf8')` is
Node's (WHATWG) UTF-8 decoder with replacement: each chunk is decoded on
its own, well-formed sequences become their code points, and ill-formed
or truncated sequences become U+FFFD replacement characters — so a chunk
boundary falling inside a multi-byte sequence changes what the buffer
receives.  `Content-Length`, by contrast, is a byte count (the bridge's
own writers use `Buffer.byteLength`), while `processMessages` advances
the buffer in characters.
-/

/-- U+FFFD, the replacement character. -/
def replChar : Char := Char.ofNat 65533

/-- Node's per-chunk `Buffer.toString('utf8')`: the WHATWG UTF-8 decoder
with replacement.  ASCII bytes decode to themselves; 2/3/4-byte
sequences check the WHATWG continuation ranges (excluding overlong forms
and surrogates); an invalid or missing continuation emits U+FFFD and
resumes at the offending byte; a sequence truncated at the end of the
chunk emits a single U+FFFD. -/
def utf8Decode : List Nat → List Char
  | [] => []
  | b :: rest =>
    if b ≤ 127 then Char.ofNat b :: utf8Decode rest
    else if 194 ≤ b ∧ b ≤ 223 then
      match rest with
      | [] => [replChar]
      | c1 :: rest1 =>
        if 128 ≤ c1 ∧ c1 ≤ 191 then
          Char.ofNat ((b - 192) * 64 + (c1 - 128)) :: utf8Decode rest1
        else replChar :: utf8Decode (c1 :: rest1)
    else if 224 ≤ b ∧ b ≤ 239 then
      match rest with
      | [] => [replChar]
      | c1 :: rest1 =>
        if (if b = 224 then 160 else 128) ≤ c1 ∧ c1 ≤ (if b = 237 then 159 else 191) then
          match rest1 with
          | [] => [replChar]
          | c2 :: rest2 =>
            if 128 ≤ c2 ∧ c2 ≤ 191 then
              Char.ofNat ((b - 224) * 4096 + (c1 - 128) * 64 + (c2 - 128)) ::
                utf8Decode rest2
            else replChar :: utf8Decode (c2 :: rest2)
        else replChar :: utf8Decode (c1 :: rest1)
    else if 240 ≤ b ∧ b ≤ 244 then
      match rest with
      | [] => [replChar]
      | c1 :: rest1 =>
        if (if b = 240 then 144 else 128) ≤ c1 ∧ c1 ≤ (if b = 244 then 143 else 191) then
          match rest1 with
          | [] => [replChar]
          | c2 :: rest2 =>
            if 128 ≤ c2 ∧ c2 ≤ 191 then
              match rest2 with
              | [] => [replChar]
              | c3 :: rest3 =>
                if 128 ≤ c3 ∧ c3 ≤ 191 then
                  Char.ofNat ((b - 240) * 262144 + (c1 - 128) * 4096 +
                    (c2 - 128) * 64 + (c3 - 128)) :: utf8Decode rest3
                else replChar :: utf8Decode (c3 :: rest3)
            else replChar :: utf8Decode (c2 :: rest2)
        else replChar :: utf8Decode (c1 :: rest1)
    else replChar :: utf8Decode rest

/-- The UTF-8 bytes of an all-ASCII string. -/
def asciiBytes (s : String) : List Nat := s.data.map Char.toNat

/-- Feeding raw byte chunks to a fresh framer: each `data` event decodes
its chunk with `Buffer.toString('utf8')`, appends it to the buffer, and
runs `processMessages`. -/
def feedChunksBytes (chunks : List (List Nat)) : List Char × List (List Char) :=
  feedChunks (chunks.map utf8Decode)

/-- A parser that accepts exactly the payload "Z" (stands for the JSON
parse in the desynchronization counterexample). -/
def parseZ : List Char → Option Nat := fun p => if p = ['Z'] then some 1 else none

/-- C8 counterexample: the complete frame `Content-Length: 2\r\n\r\n`
followed by the two payload bytes 0xC3 0xA9 (UTF-8 for one non-ASCII
character), split between those two bytes.  Fed whole, the chunk decodes
the payload to one character, so the framer sees only 1 of the 2
declared units and keeps waiting; fed split, each half decodes to a
U+FFFD replacement character, the buffer reaches the declared count, and
the framer emits a (corrupted) two-replacement-character message — the
chunked run and the single-chunk run disagree, refuting byte-level
split invariance. -/
theorem framer_byte_split_diverges :
    ([195, 169] : List Nat).length = digitsToNat ['2'] ∧
    feedChunksBytes
        [asciiBytes "Content-Length: 2\r\n\r\n" ++ [195], [169]] ≠
      feedChunksBytes
        [(asciiBytes "Content-Length: 2\r\n\r\n" ++ [195]) ++ [169]] ∧
    (feedChunksBytes
        [asciiBytes "Content-Length: 2\r\n\r\n" ++ [195], [169]]).2 =
      [[replChar, replChar]] ∧
    (feedChunksBytes
        [(asciiBytes "Content-Length: 2\r\n\r\n" ++ [195]) ++ [169]]).2 = [] := by
  decide

/-- C8 (amended): whenever the chunk boundaries respect UTF-8 character
boundaries — per-chunk decoding concatenates to the decoding of the
whole stream, as it does for every split of an all-ASCII stream —
feeding the byte chunks one at a time yields the same decoded payloads
and residual buffer as feeding everything as one chunk. -/
theorem framer_chunk_split_invariant_bytes (chunks : List (List Nat))
    (hsplit : concatAll (chunks.map utf8Decode) = utf8Decode (concatAll chunks)) :
    feedChunksBytes chunks = feedChunksBytes [concatAll chunks] := by
  unfold feedChunksBytes
  rw [show ([concatAll chunks].map utf8Decode) = [utf8Decode (concatAll chunks)]
    from rfl]
  rw [← hsplit]
  exact framer_chunk_split_invariant (chunks.map utf8Decode)

/-- Witness for C8's amended theorem: an ASCII frame split into three
chunks, one boundary inside the header and one inside the separator. -/
theorem framer_chunk_split_invariant_bytes_witness :
    concatAll
        ([asciiBytes "Content-Le", asciiBytes "ngth: 1\r\n\r",
          asciiBytes "\nZ"].map utf8Decode) =
      utf8Decode (concatAll
        [asciiBytes "Content-Le", asciiBytes "ngth: 1\r\n\r", asciiBytes "\nZ"]) ∧
    feedChunksBytes
        [asciiBytes "Content-Le", asciiBytes "ngth: 1\r\n\r", asciiBytes "\nZ"] =
      feedChunksBytes
        [concatAll
          [asciiBytes "Content-Le", asciiBytes "ngth: 1\r\n\r", asciiBytes "\nZ"]] :=
  ⟨by decide, framer_chunk_split_invariant_bytes
    [asciiBytes "Content-Le", asciiBytes "ngth: 1\r\n\r", asciiBytes "\nZ"]
    (by decide)⟩

/-- C9 counterexample: a frame declaring `Content-Length: 2` for the
two-byte payload 0xC3 0xA9 (one non-ASCII character, which fails the
JSON parse), followed by the well-formed frame `Content-Length: 1` with
payload "Z".  The buffer holds the payload as a single character, but
the framer advances by the declared count 2 in characters, stealing the
next frame's first byte; the subsequent well-formed frame is destroyed
instead of decoding to the same message it yields without the bad frame
— the boundaries desynchronize, refuting the claim. -/
theorem framer_bad_frame_desync :
    ([195, 169] : List Nat).length = digitsToNat ['2'] ∧
    parseZ (utf8Decode [195, 169]) = none ∧
    (processMessages (utf8Decode
        (asciiBytes "Content-Length: 2\r\n\r\n" ++ [195, 169] ++
          asciiBytes "Content-Length: 1\r\n\r\nZ"))).2.filterMap parseZ ≠
      (processMessages (utf8Decode
        (asciiBytes "Content-Length: 1\r\n\r\nZ"))).2.filterMap parseZ ∧
    (processMessages (utf8Decode
        (asciiBytes "Content-Length: 1\r\n\r\nZ"))).2.filterMap parseZ = [1] := by
  decide
